import Mathlib

/-!
Verification of the KVSSD user-space driver's asynchronous command/completion
engine (`KUDDriver`, declared in `kvs_udd.hpp`).  The repository ships only the
class declaration of `KUDDriver`; the bodies of its methods are modelled here
from the specification's contracts (§4.1 Resource Pools, §4.2 Command
Submission, §4.3 Completion Processor, §4.4 Iterator Manager).  Opaque C
values (callback function pointers, `void*` user tags, device handles) are
modelled as natural numbers; the free-list pools as lists/counters; the
transport submission and completion queues as explicit lists inside an engine
state record.
-/

namespace KVSSD

/-- The uniform result taxonomy of §7. -/
inductive Status where
  | Ok
  | QueueFull
  | InvalidArgument
  | InvalidIteratorHandle
  | IteratorLimitExceeded
  | KeyNotFound
  | Timeout
  | DeviceError
  deriving DecidableEq, Repr

/-- Opcodes of the seven commands the engine submits
(store, retrieve, delete, exists, iterator open/close/next). -/
inductive Opcode where
  | store
  | retrieve
  | del
  | exist
  | iterOpen
  | iterClose
  | iterNext
  deriving DecidableEq, Repr

/-- Whether an opcode borrows a value container (`kv_pair`) from the pool:
store and retrieve carry a value payload. -/
def needsPair : Opcode → Bool
  | .store => true
  | .retrieve => true
  | _ => false

/-- The caller-visible part of an operation context (`kvs_callback_context
iocb`): opcode and the two opaque user tags `private1`/`private2`. -/
structure kvs_callback_context where
  opcode : Opcode
  private1 : Nat
  private2 : Nat
  deriving DecidableEq, Repr

/-- `KUDDriver::kv_udd_context` (kvs_udd.hpp lines 63–68): the pooled
per-operation context block.  `owner` is the `KUDDriver*` back-pointer,
`on_complete` the bound callback function, `iter_list` the iterator-result
buffer used by iterator-next operations.  `none` models a cleared/NULL
pointer. -/
structure kv_udd_context where
  iocb : kvs_callback_context
  owner : Option Nat
  on_complete : Option Nat
  iter_list : Option Nat
  deriving DecidableEq, Repr

/-- A freshly constructed context: all pointers null, zeroed metadata. -/
def freshContext : kv_udd_context :=
  { iocb := { opcode := .store, private1 := 0, private2 := 0 },
    owner := none, on_complete := none, iter_list := none }

/-- Modelled from the spec (§4.1): `acquire_context()` returns a ready-to-fill
context, taking one from the free-list if available, else constructing a new
one.  (The implementing `.cpp` is absent from the sources; only the pool
member `udd_context_pool` is declared in the header.) -/
def acquire_context (pool : List kv_udd_context) :
    kv_udd_context × List kv_udd_context :=
  (pool.headD freshContext, pool.tail)

/-- Modelled from the spec (§4.1): `release_context(ctx)` clears the
owner/callback fields and pushes the context back onto the free-list. -/
def release_context (c : kv_udd_context) (pool : List kv_udd_context) :
    List kv_udd_context :=
  { c with owner := none, on_complete := none, iter_list := none } :: pool

/-- An in-flight operation: correlation id, its bound context, and whether it
holds a value container from `kv_pair_pool`. -/
structure InflightOp where
  id : Nat
  ctx : kv_udd_context
  hasPair : Bool
  deriving DecidableEq, Repr

/-- A recorded callback invocation: which operation completed, which callback
was invoked, the translated result, the user tags it was passed, and (for
iterator-next) the iterator-result buffer. -/
structure CallbackEvent where
  opId : Nat
  cb : Option Nat
  result : Status
  tag1 : Nat
  tag2 : Nat
  iter_list : Option Nat
  deriving DecidableEq, Repr

/-- Ghost log of one submission: correlation id and the user tags supplied. -/
structure SubmitRec where
  id : Nat
  t1 : Nat
  t2 : Nat
  deriving DecidableEq, Repr

/-- State of one device-side iterator cursor (§4.4 state machine):
`Open batches` holds the batches of keys the device cursor will still return
(empty list = cursor exhausted); `Closed` after `close_iterator`. -/
inductive IterState where
  | Open (batches : List (List Nat))
  | Closed
  deriving DecidableEq, Repr

/-- Modelled from the spec: the whole engine state of one `KUDDriver` session.
`queue_depth` and `user_io_complete_` mirror the header members (lines 53, 75);
`udd_context_pool` and `kv_pair_pool` the two pooled free-lists (lines 71–72,
the value-container pool kept as a count of free containers); `inFlight` the
transport submission queue contents, `cq` its completion queue (op paired with
the raw device completion code), `events` the log of callback invocations,
`submitted` a ghost log of submissions, `acquired`/`released` ghost counters of
pool traffic, `iters` the iterator handles with their cursor state. -/
structure EngineState where
  queue_depth : Nat
  user_io_complete_ : Nat
  nextId : Nat
  udd_context_pool : List kv_udd_context
  kv_pair_pool : Nat
  inFlight : List InflightOp
  cq : List (InflightOp × Nat)
  events : List CallbackEvent
  submitted : List SubmitRec
  acquired : Nat
  released : Nat
  iters : List (Nat × IterState)
  next_iter : Nat
  deriving DecidableEq, Repr

/-- `KUDDriver::KUDDriver(dev, user_io_complete_)`: a fresh session with the
configured queue depth, the session-wide completion callback, and empty
pools/queues. -/
def initDriver (qd cbid : Nat) : EngineState :=
  { queue_depth := qd, user_io_complete_ := cbid, nextId := 0,
    udd_context_pool := [], kv_pair_pool := 0, inFlight := [], cq := [],
    events := [], submitted := [], acquired := 0, released := 0,
    iters := [], next_iter := 0 }

/-- The transport submission queue has no free slot (§6: queue depth is the
maximum number of commands the transport accepts before a submission must
wait). -/
def queueFull (s : EngineState) : Prop :=
  s.queue_depth ≤ s.inFlight.length + s.cq.length

instance (s : EngineState) : Decidable (queueFull s) := by
  unfold queueFull; infer_instance

/-- Modelled from the spec (§4.2): `prep_io_context` (declared at header line
96) acquires a context from the pool and fills it: opcode, user tags, owner,
and the bound callback — the caller-supplied one, or the session-wide
`user_io_complete_` when none is supplied. -/
def prep_io_context (op : Opcode) (p1 p2 : Nat) (cbfn : Option Nat)
    (il : Option Nat) (s : EngineState) : kv_udd_context × List kv_udd_context :=
  let (c, pool) := acquire_context s.udd_context_pool
  ({ c with iocb := { opcode := op, private1 := p1, private2 := p2 },
            owner := some 1,
            on_complete := some (cbfn.getD s.user_io_complete_),
            iter_list := il }, pool)

/-- Modelled from the spec (§4.2): the asynchronous submission path shared by
store/retrieve/delete/exists/iterator commands.  If the transport queue is
full the call fails immediately with `QueueFull` and no state change;
otherwise a context (and, for store/retrieve, a value container) is acquired,
bound as the completion correlation token and handed to the transport queue,
returning `Ok` (pending). -/
def submit_async (s : EngineState) (op : Opcode) (p1 p2 : Nat)
    (cbfn : Option Nat) (il : Option Nat) : Status × EngineState :=
  if queueFull s then (.QueueFull, s)
  else
    let (ctx, pool) := prep_io_context op p1 p2 cbfn il s
    (.Ok,
      { s with
        nextId := s.nextId + 1,
        udd_context_pool := pool,
        kv_pair_pool := if needsPair op then s.kv_pair_pool - 1 else s.kv_pair_pool,
        inFlight := s.inFlight ++ [⟨s.nextId, ctx, needsPair op⟩],
        submitted := s.submitted ++ [⟨s.nextId, p1, p2⟩],
        acquired := s.acquired + 1 })

/-- The transport asynchronously finishes the `i`-th in-flight command with
raw device completion code `raw`, moving it to the completion queue.
Completions need not follow submission order (§5), hence the free index. -/
def deviceComplete (i raw : Nat) (s : EngineState) : EngineState :=
  match s.inFlight[i]? with
  | none => s
  | some op =>
      { s with inFlight := s.inFlight.take i ++ s.inFlight.drop (i + 1),
               cq := s.cq ++ [(op, raw)] }

/-- Modelled from the spec (§7, §9): the table-driven translation of the
transport's raw completion code into the uniform result taxonomy. -/
def translate_result (raw : Nat) : Status :=
  if raw = 0 then .Ok
  else if raw = 1 then .KeyNotFound
  else .DeviceError

/-- Modelled from the spec (§4.3): retire one completion-queue entry —
extract the correlated context, translate the raw code, invoke the context's
callback with (result, user tags, iterator-result buffer), and release the
context and any associated value container back to the pools. -/
def retire_one (s : EngineState) : EngineState :=
  match s.cq with
  | [] => s
  | (op, raw) :: rest =>
      { s with
        cq := rest,
        events := s.events ++
          [⟨op.id, op.ctx.on_complete, translate_result raw,
            op.ctx.iocb.private1, op.ctx.iocb.private2, op.ctx.iter_list⟩],
        udd_context_pool := release_context op.ctx s.udd_context_pool,
        kv_pair_pool := if op.hasPair then s.kv_pair_pool + 1 else s.kv_pair_pool,
        released := s.released + 1 }

/-- Retire `k` completions (at most; stops when the queue empties). -/
def drain : Nat → EngineState → EngineState
  | 0, s => s
  | k + 1, s => drain k (retire_one s)

/-- Modelled from the spec (§4.3): `KUDDriver::process_completions(max)`
(header line 78) polls the transport completion queue for up to `max` entries
— or, when `max ≤ 0`, drains everything currently available and then returns
— and reports how many completions were drained by this call. -/
def process_completions (max : Int) (s : EngineState) : Nat × EngineState :=
  let budget := if max ≤ 0 then s.cq.length else min max.toNat s.cq.length
  (budget, drain budget s)

/-- Modelled from the spec (§4.2, §4.3 step 4): the synchronous store path
against a transport stub that completes the command with raw code `raw`:
acquire a value container and a context, bind the internal signal callback,
submit, spin until the one issued operation's completion is observed, release
both resources, and return the translated result code directly instead of
invoking a callback. -/
def store_sync_complete (raw p1 p2 : Nat) (s : EngineState) :
    Status × EngineState :=
  let (c, pool) := acquire_context s.udd_context_pool
  let ctx : kv_udd_context :=
    { c with iocb := { opcode := .store, private1 := p1, private2 := p2 },
             owner := some 1, on_complete := some 0, iter_list := none }
  (translate_result raw,
    { s with
      udd_context_pool := release_context ctx pool,
      kv_pair_pool := s.kv_pair_pool - 1 + 1,
      acquired := s.acquired + 1, released := s.released + 1 })

/-- Modelled from the spec (§4.2): the synchronous submission path when the
transport queue is full — it spin-polls the Completion Processor until space
frees or the retry budget is exhausted, then surfaces `Timeout` (§5). -/
def store_tuple_spin : Nat → Nat → Nat → Nat → EngineState → Status × EngineState
  | 0, _, _, _, s => (.Timeout, s)
  | b + 1, raw, p1, p2, s =>
    if queueFull s then
      store_tuple_spin b raw p1 p2 (process_completions 1 s).2
    else store_sync_complete raw p1 p2 s

/-- Modelled from the spec (§4.2): `KUDDriver::store_tuple` (header line 79).
Key validation, then dispatch: the asynchronous path submits and returns the
pending status immediately; the synchronous path (`sync = true`) spin-waits on
the transport stub's completion with retry budget `budget`. -/
def store_tuple (s : EngineState) (key : List Nat) (value : List Nat)
    (p1 p2 : Nat) (sync : Bool) (cbfn : Option Nat) (raw budget : Nat) :
    Status × EngineState :=
  if key.isEmpty then (.InvalidArgument, s)
  else if sync then store_tuple_spin budget raw p1 p2 s
  else
    let (st, s1) := submit_async s .store p1 p2 cbfn none
    (st, s1)

/-- Modelled from the spec (§4.4): `KUDDriver::open_iterator` (header lines
83–84).  Note the declaration takes no per-call callback, user tags or sync
flag — the open command is submitted with the session-wide callback.  On
success a fresh handle transitions to Open with the device cursor's pending
batches `batches`. -/
def open_iterator (s : EngineState) (batches : List (List Nat)) :
    Status × Nat × EngineState :=
  let (st, s1) := submit_async s .iterOpen 0 0 none none
  match st with
  | .Ok =>
      (.Ok, s1.next_iter,
        { s1 with iters := (s1.next_iter, IterState.Open batches) :: s1.iters,
                  next_iter := s1.next_iter + 1 })
  | e => (e, 0, s1)

/-- Replace the state of iterator handle `h`. -/
def set_iter (h : Nat) (st : IterState) :
    List (Nat × IterState) → List (Nat × IterState)
  | [] => []
  | (k, v) :: rest =>
      if k = h then (k, st) :: rest else (k, v) :: set_iter h st rest

/-- Modelled from the spec (§4.4): `KUDDriver::close_iterator` (header line
84).  Valid only from Open: submits a close command (session-wide callback,
no per-call callback parameter) and transitions the handle to Closed, making
it invalid for further next calls. -/
def close_iterator (s : EngineState) (hiter : Nat) : Status × EngineState :=
  match s.iters.lookup hiter with
  | some (IterState.Open _) =>
      let (st, s1) := submit_async s .iterClose 0 0 none none
      match st with
      | .Ok => (.Ok, { s1 with iters := set_iter hiter IterState.Closed s1.iters })
      | e => (e, s1)
  | _ => (.InvalidIteratorHandle, s)

/-- Modelled from the spec (§4.4): `KUDDriver::iterator_next` (header line
85), result view: valid only while the handle is Open; a handle never opened
or already closed yields `InvalidIteratorHandle`.  An Open cursor with
remaining batches delivers the next batch; an exhausted cursor (no remaining
batches) delivers a successful empty batch with the exhausted flag set and
leaves the handle Open.  Returns (status, key batch, exhausted flag, state). -/
def iterator_next (s : EngineState) (hiter : Nat) :
    Status × List Nat × Bool × EngineState :=
  match s.iters.lookup hiter with
  | none => (.InvalidIteratorHandle, [], false, s)
  | some IterState.Closed => (.InvalidIteratorHandle, [], false, s)
  | some (IterState.Open []) => (.Ok, [], true, s)
  | some (IterState.Open (b :: rest)) =>
      (.Ok, b, false,
        { s with iters := set_iter hiter (IterState.Open rest) s.iters })

/-- A trace command: an asynchronous submission, a transport-side completion,
or a poll of the Completion Processor. -/
inductive Cmd where
  | submit (op : Opcode) (t1 t2 : Nat) (cbfn : Option Nat) (il : Option Nat)
  | devComplete (i raw : Nat)
  | poll (max : Int)
  deriving DecidableEq, Repr

/-- One step of the engine under a trace command. -/
def step (s : EngineState) : Cmd → EngineState
  | .submit op t1 t2 cbfn il => (submit_async s op t1 t2 cbfn il).2
  | .devComplete i raw => deviceComplete i raw s
  | .poll m => (process_completions m s).2

/-- Run a finite trace of commands from a state. -/
def run (s : EngineState) (cmds : List Cmd) : EngineState :=
  cmds.foldl step s

/-! ### Counting occurrences of a correlation id through the pipeline -/

/-- Occurrences of correlation id `n` in the submission queue. -/
def idCountF (n : Nat) (l : List InflightOp) : Nat :=
  l.countP (fun op => op.id == n)

/-- Occurrences of correlation id `n` in the completion queue. -/
def idCountC (n : Nat) (l : List (InflightOp × Nat)) : Nat :=
  l.countP (fun pc => pc.1.id == n)

/-- Callback invocations recorded for correlation id `n`. -/
def idCountE (n : Nat) (l : List CallbackEvent) : Nat :=
  l.countP (fun e => e.opId == n)

/-- Total occurrences of id `n` across submission queue, completion queue and
callback log. -/
def idCount (n : Nat) (s : EngineState) : Nat :=
  idCountF n s.inFlight + idCountC n s.cq + idCountE n s.events

/-- Value containers held by in-flight (not yet retired) operations. -/
def pairCount (s : EngineState) : Nat :=
  s.inFlight.countP (fun op => op.hasPair) + s.cq.countP (fun pc => pc.1.hasPair)

/-- The operation with id `n` is still pending: its completion has not yet
been drained by `process_completions`. -/
def idPending (n : Nat) (s : EngineState) : Bool :=
  decide (0 < idCountF n s.inFlight + idCountC n s.cq)

/-! ### The reachable-state invariant -/

/-- Invariant of every state reachable by a trace from `initDriver`:
* each submitted operation occurs exactly once across the pipeline
  (submission queue + completion queue + callback log);
* ids at or above `nextId` are unused;
* the user tags carried anywhere in the pipeline match the tags logged at
  submission;
* every pooled context has cleared owner/callback/iterator fields;
* in-flight operations never exceed the queue depth, and both free-list pools
  plus their outstanding entries stay within the queue depth;
* pool traffic balances: acquired = released + in-flight contexts. -/
structure Inv (s : EngineState) : Prop where
  submitted_once : ∀ r ∈ s.submitted, idCount r.id s = 1
  fresh_id : ∀ n, s.nextId ≤ n → idCount n s = 0
  fresh_sub : ∀ n, s.nextId ≤ n → ∀ r ∈ s.submitted, r.id ≠ n
  tags_fl : ∀ r ∈ s.submitted, ∀ op ∈ s.inFlight, op.id = r.id →
    op.ctx.iocb.private1 = r.t1 ∧ op.ctx.iocb.private2 = r.t2
  tags_cq : ∀ r ∈ s.submitted, ∀ pc ∈ s.cq, pc.1.id = r.id →
    pc.1.ctx.iocb.private1 = r.t1 ∧ pc.1.ctx.iocb.private2 = r.t2
  tags_ev : ∀ r ∈ s.submitted, ∀ e ∈ s.events, e.opId = r.id →
    e.tag1 = r.t1 ∧ e.tag2 = r.t2
  pool_clear : ∀ c ∈ s.udd_context_pool,
    c.owner = none ∧ c.on_complete = none ∧ c.iter_list = none
  fl_bound : s.inFlight.length + s.cq.length ≤ s.queue_depth
  ctx_bound : s.udd_context_pool.length + s.inFlight.length + s.cq.length ≤
    s.queue_depth
  pair_bound : s.kv_pair_pool + pairCount s ≤ s.queue_depth
  acq_rel : s.acquired = s.released + s.inFlight.length + s.cq.length

/-- The initial session state satisfies the invariant. -/
theorem inv_init (qd cbid : Nat) : Inv (initDriver qd cbid) := by
  constructor <;> simp [initDriver, idCount, idCountF, idCountC, idCountE,
    pairCount]

/-! ### Counting helper lemmas -/

theorem idCountF_append (n : Nat) (l₁ l₂ : List InflightOp) :
    idCountF n (l₁ ++ l₂) = idCountF n l₁ + idCountF n l₂ :=
  List.countP_append _ _ _

theorem idCountC_append (n : Nat) (l₁ l₂ : List (InflightOp × Nat)) :
    idCountC n (l₁ ++ l₂) = idCountC n l₁ + idCountC n l₂ :=
  List.countP_append _ _ _

theorem idCountE_append (n : Nat) (l₁ l₂ : List CallbackEvent) :
    idCountE n (l₁ ++ l₂) = idCountE n l₁ + idCountE n l₂ :=
  List.countP_append _ _ _

theorem idCountF_single (n : Nat) (op : InflightOp) :
    idCountF n [op] = if op.id = n then 1 else 0 := by
  simp [idCountF, List.countP_cons]

theorem idCountC_single (n : Nat) (pc : InflightOp × Nat) :
    idCountC n [pc] = if pc.1.id = n then 1 else 0 := by
  simp [idCountC, List.countP_cons]

theorem idCountE_single (n : Nat) (e : CallbackEvent) :
    idCountE n [e] = if e.opId = n then 1 else 0 := by
  simp [idCountE, List.countP_cons]

theorem idCountF_ne_of_zero {n : Nat} {l : List InflightOp}
    (h : idCountF n l = 0) {op : InflightOp} (hop : op ∈ l) : op.id ≠ n := by
  have := List.countP_eq_zero.mp h op hop
  simpa using this

theorem idCountC_ne_of_zero {n : Nat} {l : List (InflightOp × Nat)}
    (h : idCountC n l = 0) {pc : InflightOp × Nat} (hpc : pc ∈ l) :
    pc.1.id ≠ n := by
  have := List.countP_eq_zero.mp h pc hpc
  simpa using this

theorem idCountE_ne_of_zero {n : Nat} {l : List CallbackEvent}
    (h : idCountE n l = 0) {e : CallbackEvent} (he : e ∈ l) : e.opId ≠ n := by
  have := List.countP_eq_zero.mp h e he
  simpa using this

/-- Splitting a count of any list at the element sitting at index `i`. -/
theorem countP_extract {α : Type} (p : α → Bool) (l : List α) (i : Nat)
    (x : α) (h : l[i]? = some x) :
    l.countP p = (l.take i ++ l.drop (i + 1)).countP p +
      (if p x then 1 else 0) := by
  obtain ⟨hn, rfl⟩ := List.getElem?_eq_some.mp h
  conv_lhs => rw [← List.take_append_drop i l]
  rw [List.countP_append, List.drop_eq_getElem_cons hn, List.countP_cons,
    List.countP_append]
  omega

theorem mem_extract {α : Type} {l : List α} {i : Nat} {y : α}
    (h : y ∈ l.take i ++ l.drop (i + 1)) : y ∈ l := by
  rcases List.mem_append.mp h with h' | h'
  · exact List.take_subset i l h'
  · exact List.drop_subset (i + 1) l h'

/-! ### Invariant preservation -/

/-- The context built by `prep_io_context`, written out. -/
def subCtx (op : Opcode) (p1 p2 : Nat) (cbfn : Option Nat) (il : Option Nat)
    (s : EngineState) : kv_udd_context :=
  { iocb := { opcode := op, private1 := p1, private2 := p2 },
    owner := some 1, on_complete := some (cbfn.getD s.user_io_complete_),
    iter_list := il }

theorem submit_async_not_full (s : EngineState) (op : Opcode) (p1 p2 : Nat)
    (cbfn : Option Nat) (il : Option Nat) (hf : ¬ queueFull s) :
    submit_async s op p1 p2 cbfn il =
      (.Ok, { s with
        nextId := s.nextId + 1,
        udd_context_pool := s.udd_context_pool.tail,
        kv_pair_pool :=
          if needsPair op then s.kv_pair_pool - 1 else s.kv_pair_pool,
        inFlight :=
          s.inFlight ++ [⟨s.nextId, subCtx op p1 p2 cbfn il s, needsPair op⟩],
        submitted := s.submitted ++ [⟨s.nextId, p1, p2⟩],
        acquired := s.acquired + 1 }) := by
  simp [submit_async, prep_io_context, acquire_context, hf, subCtx]

theorem submit_async_full (s : EngineState) (op : Opcode) (p1 p2 : Nat)
    (cbfn : Option Nat) (il : Option Nat) (hf : queueFull s) :
    submit_async s op p1 p2 cbfn il = (.QueueFull, s) := by
  simp [submit_async, hf]

theorem inv_submit (s : EngineState) (op : Opcode) (p1 p2 : Nat)
    (cbfn : Option Nat) (il : Option Nat) (h : Inv s) :
    Inv (submit_async s op p1 p2 cbfn il).2 := by
  by_cases hf : queueFull s
  · rw [submit_async_full s op p1 p2 cbfn il hf]; exact h
  · rw [submit_async_not_full s op p1 p2 cbfn il hf]
    have hlt : s.inFlight.length + s.cq.length < s.queue_depth := by
      unfold queueFull at hf; omega
    refine { submitted_once := ?_, fresh_id := ?_, fresh_sub := ?_,
             tags_fl := ?_, tags_cq := ?_, tags_ev := ?_, pool_clear := ?_,
             fl_bound := ?_, ctx_bound := ?_, pair_bound := ?_, acq_rel := ?_ }
    · intro r hr
      dsimp only at hr ⊢
      rcases List.mem_append.mp hr with hro | hrn
      · have hne : r.id ≠ s.nextId := h.fresh_sub s.nextId le_rfl r hro
        have h1 := h.submitted_once r hro
        simp only [idCount, idCountF_append, idCountF_single] at h1 ⊢
        rw [if_neg (fun e => hne e.symm)]
        omega
      · have hr' : r = ⟨s.nextId, p1, p2⟩ := by simpa using hrn
        subst hr'
        have h0 := h.fresh_id s.nextId le_rfl
        simp only [idCount, idCountF_append, idCountF_single] at h0 ⊢
        simp only [eq_self_iff_true, if_true]
        omega
    · intro n hn
      dsimp only at hn ⊢
      have h0 := h.fresh_id n (by omega)
      simp only [idCount, idCountF_append, idCountF_single] at h0 ⊢
      rw [if_neg (by omega)]
      omega
    · intro n hn r hr
      dsimp only at hn hr
      rcases List.mem_append.mp hr with hro | hrn
      · exact h.fresh_sub n (by omega) r hro
      · have hr' : r = ⟨s.nextId, p1, p2⟩ := by simpa using hrn
        subst hr'
        dsimp only
        omega
    · intro r hr op' hop' hid
      dsimp only at hr hop' hid ⊢
      rcases List.mem_append.mp hr with hro | hrn
      · rcases List.mem_append.mp hop' with hfo | hfn
        · exact h.tags_fl r hro op' hfo hid
        · exfalso
          have hop'' : op' = ⟨s.nextId, subCtx op p1 p2 cbfn il s, needsPair op⟩ := by
            simpa using hfn
          apply h.fresh_sub s.nextId le_rfl r hro
          rw [← hid, hop'']
      · have hr' : r = ⟨s.nextId, p1, p2⟩ := by simpa using hrn
        subst hr'
        have h0 := h.fresh_id s.nextId le_rfl
        simp only [idCount] at h0
        have hz : idCountF s.nextId s.inFlight = 0 := by omega
        rcases List.mem_append.mp hop' with hfo | hfn
        · exact absurd (by simpa using hid) (idCountF_ne_of_zero hz hfo)
        · have hop'' : op' = ⟨s.nextId, subCtx op p1 p2 cbfn il s, needsPair op⟩ := by
            simpa using hfn
          subst hop''
          simp [subCtx]
    · intro r hr pc hpc hid
      dsimp only at hr hpc hid ⊢
      rcases List.mem_append.mp hr with hro | hrn
      · exact h.tags_cq r hro pc hpc hid
      · have hr' : r = ⟨s.nextId, p1, p2⟩ := by simpa using hrn
        subst hr'
        have h0 := h.fresh_id s.nextId le_rfl
        simp only [idCount] at h0
        have hz : idCountC s.nextId s.cq = 0 := by omega
        exact absurd (by simpa using hid) (idCountC_ne_of_zero hz hpc)
    · intro r hr e he hid
      dsimp only at hr he hid ⊢
      rcases List.mem_append.mp hr with hro | hrn
      · exact h.tags_ev r hro e he hid
      · have hr' : r = ⟨s.nextId, p1, p2⟩ := by simpa using hrn
        subst hr'
        have h0 := h.fresh_id s.nextId le_rfl
        simp only [idCount] at h0
        have hz : idCountE s.nextId s.events = 0 := by omega
        exact absurd (by simpa using hid) (idCountE_ne_of_zero hz he)
    · intro c hc
      dsimp only at hc
      exact h.pool_clear c (List.tail_subset _ hc)
    · dsimp only
      simp
      omega
    · have := h.ctx_bound
      dsimp only
      simp [List.length_tail]
      omega
    · have hpb := h.pair_bound
      have c1 : s.inFlight.countP (fun op => op.hasPair) ≤ s.inFlight.length :=
        List.countP_le_length _
      have c2 : s.cq.countP (fun pc => pc.1.hasPair) ≤ s.cq.length :=
        List.countP_le_length _
      dsimp only
      simp only [pairCount, List.countP_append, List.countP_cons,
        List.countP_nil] at hpb ⊢
      cases hnp : needsPair op <;> simp [hnp] <;> omega
    · have := h.acq_rel
      dsimp only
      simp
      omega

theorem idCountF_extract (n : Nat) (l : List InflightOp) (i : Nat)
    (x : InflightOp) (h : l[i]? = some x) :
    idCountF n l = idCountF n (l.take i ++ l.drop (i + 1)) +
      (if x.id = n then 1 else 0) := by
  have := countP_extract (fun op => op.id == n) l i x h
  simpa [idCountF] using this

theorem idCount_devComplete (n i raw : Nat) (s : EngineState) :
    idCount n (deviceComplete i raw s) = idCount n s := by
  unfold deviceComplete
  cases hx : s.inFlight[i]? with
  | none => rfl
  | some x =>
    have he := idCountF_extract n s.inFlight i x hx
    simp only [idCount, idCountC_append, idCountC_single]
    dsimp only
    omega

theorem inv_devComplete (i raw : Nat) (s : EngineState) (h : Inv s) :
    Inv (deviceComplete i raw s) := by
  unfold deviceComplete
  cases hx : s.inFlight[i]? with
  | none => exact h
  | some x =>
    have hxm : x ∈ s.inFlight := by
      obtain ⟨hn, rfl⟩ := List.getElem?_eq_some.mp hx
      exact List.getElem_mem hn
    have hi : i < s.inFlight.length := (List.getElem?_eq_some.mp hx).1
    have hdc : deviceComplete i raw s =
        { s with inFlight := s.inFlight.take i ++ s.inFlight.drop (i + 1),
                 cq := s.cq ++ [(x, raw)] } := by
      unfold deviceComplete; rw [hx]
    have hcnt : ∀ n, idCount n (deviceComplete i raw s) = idCount n s :=
      fun n => idCount_devComplete n i raw s
    rw [hdc] at hcnt
    refine { submitted_once := ?_, fresh_id := ?_, fresh_sub := ?_,
             tags_fl := ?_, tags_cq := ?_, tags_ev := ?_, pool_clear := ?_,
             fl_bound := ?_, ctx_bound := ?_, pair_bound := ?_, acq_rel := ?_ }
    · intro r hr
      dsimp only at hr
      rw [hcnt r.id]
      exact h.submitted_once r hr
    · intro n hn
      dsimp only at hn
      rw [hcnt n]
      exact h.fresh_id n hn
    · intro n hn r hr
      dsimp only at hn hr
      exact h.fresh_sub n hn r hr
    · intro r hr op' hop' hid
      dsimp only at hr hop' hid ⊢
      exact h.tags_fl r hr op' (mem_extract hop') hid
    · intro r hr pc hpc hid
      dsimp only at hr hpc hid ⊢
      rcases List.mem_append.mp hpc with hpo | hpn
      · exact h.tags_cq r hr pc hpo hid
      · have hpc' : pc = (x, raw) := by simpa using hpn
        subst hpc'
        exact h.tags_fl r hr x hxm hid
    · intro r hr e he hid
      dsimp only at hr he hid ⊢
      exact h.tags_ev r hr e he hid
    · intro c hc
      dsimp only at hc
      exact h.pool_clear c hc
    · have := h.fl_bound
      dsimp only
      simp
      omega
    · have := h.ctx_bound
      dsimp only
      simp
      omega
    · have hpb := h.pair_bound
      have e1 := countP_extract (fun op => op.hasPair) s.inFlight i x hx
      dsimp only
      simp only [pairCount, List.countP_append, List.countP_cons,
        List.countP_nil] at hpb e1 ⊢
      cases hxp : x.hasPair <;> simp [hxp] at e1 ⊢ <;> omega
    · have := h.acq_rel
      dsimp only
      simp
      omega

theorem inv_retire (s : EngineState) (h : Inv s) : Inv (retire_one s) := by
  unfold retire_one
  cases hc : s.cq with
  | nil => exact h
  | cons hd rest =>
    obtain ⟨op, raw⟩ := hd
    have hhd : (op, raw) ∈ s.cq := by rw [hc]; exact List.mem_cons_self _ _
    refine { submitted_once := ?_, fresh_id := ?_, fresh_sub := ?_,
             tags_fl := ?_, tags_cq := ?_, tags_ev := ?_, pool_clear := ?_,
             fl_bound := ?_, ctx_bound := ?_, pair_bound := ?_, acq_rel := ?_ }
    · intro r hr
      dsimp only at hr ⊢
      have h1 := h.submitted_once r hr
      simp only [idCount, idCountE_append, idCountE_single, hc,
        idCountC, List.countP_cons] at h1 ⊢
      simp only [beq_iff_eq] at h1 ⊢
      dsimp only
      omega
    · intro n hn
      dsimp only at hn ⊢
      have h0 := h.fresh_id n hn
      simp only [idCount, idCountE_append, idCountE_single, hc,
        idCountC, List.countP_cons] at h0 ⊢
      simp only [beq_iff_eq] at h0 ⊢
      dsimp only
      omega
    · intro n hn r hr
      dsimp only at hn hr
      exact h.fresh_sub n hn r hr
    · intro r hr op' hop' hid
      dsimp only at hr hop' hid ⊢
      exact h.tags_fl r hr op' hop' hid
    · intro r hr pc hpc hid
      dsimp only at hr hpc hid ⊢
      exact h.tags_cq r hr pc (by rw [hc]; exact List.mem_cons_of_mem _ hpc) hid
    · intro r hr e he hid
      dsimp only at hr he hid ⊢
      rcases List.mem_append.mp he with heo | hen
      · exact h.tags_ev r hr e heo hid
      · have he' : e = ⟨op.id, op.ctx.on_complete, translate_result raw,
            op.ctx.iocb.private1, op.ctx.iocb.private2, op.ctx.iter_list⟩ := by
          simpa using hen
        subst he'
        have := h.tags_cq r hr (op, raw) hhd (by simpa using hid)
        simpa using this
    · intro c hcm
      dsimp only at hcm
      simp only [release_context, List.mem_cons] at hcm
      rcases hcm with rfl | hcm
      · exact ⟨rfl, rfl, rfl⟩
      · exact h.pool_clear c hcm
    · have := h.fl_bound
      have hlen : s.cq.length = rest.length + 1 := by rw [hc]; rfl
      dsimp only
      omega
    · have := h.ctx_bound
      have hlen : s.cq.length = rest.length + 1 := by rw [hc]; rfl
      dsimp only
      simp only [release_context, List.length_cons]
      omega
    · have hpb := h.pair_bound
      dsimp only
      simp only [pairCount, hc, List.countP_cons] at hpb ⊢
      dsimp only at hpb ⊢
      cases hop : op.hasPair
      · simp only [hop] at hpb ⊢
        simp at hpb ⊢
        omega
      · simp only [hop] at hpb ⊢
        simp at hpb ⊢
        omega
    · have := h.acq_rel
      have hlen : s.cq.length = rest.length + 1 := by rw [hc]; rfl
      dsimp only
      omega

theorem inv_drain (k : Nat) (s : EngineState) (h : Inv s) : Inv (drain k s) := by
  induction k generalizing s with
  | zero => exact h
  | succ k ih => exact ih _ (inv_retire s h)

theorem inv_poll (m : Int) (s : EngineState) (h : Inv s) :
    Inv (process_completions m s).2 :=
  inv_drain _ s h

theorem inv_step (s : EngineState) (c : Cmd) (h : Inv s) : Inv (step s c) := by
  cases c with
  | submit op t1 t2 cbfn il => exact inv_submit s op t1 t2 cbfn il h
  | devComplete i raw => exact inv_devComplete i raw s h
  | poll m => exact inv_poll m s h

theorem inv_run (s : EngineState) (cmds : List Cmd) (h : Inv s) :
    Inv (run s cmds) := by
  induction cmds generalizing s with
  | nil => exact h
  | cons c cmds ih => exact ih _ (inv_step s c h)

/-- Every state reachable by a trace from a fresh session satisfies `Inv`. -/
theorem inv_reachable (qd cbid : Nat) (cmds : List Cmd) :
    Inv (run (initDriver qd cbid) cmds) :=
  inv_run _ cmds (inv_init qd cbid)

/-! ### Frame lemmas -/

theorem submit_async_queue_depth (s : EngineState) (op : Opcode) (p1 p2 : Nat)
    (cbfn : Option Nat) (il : Option Nat) :
    (submit_async s op p1 p2 cbfn il).2.queue_depth = s.queue_depth := by
  by_cases hf : queueFull s
  · rw [submit_async_full s op p1 p2 cbfn il hf]
  · rw [submit_async_not_full s op p1 p2 cbfn il hf]

theorem deviceComplete_queue_depth (i raw : Nat) (s : EngineState) :
    (deviceComplete i raw s).queue_depth = s.queue_depth := by
  unfold deviceComplete
  cases hx : s.inFlight[i]? <;> rfl

theorem retire_one_queue_depth (s : EngineState) :
    (retire_one s).queue_depth = s.queue_depth := by
  unfold retire_one
  cases hc : s.cq with
  | nil => rfl
  | cons hd rest => obtain ⟨op, raw⟩ := hd; rfl

theorem retire_one_inFlight (s : EngineState) :
    (retire_one s).inFlight = s.inFlight := by
  unfold retire_one
  cases hc : s.cq with
  | nil => rfl
  | cons hd rest => obtain ⟨op, raw⟩ := hd; rfl

theorem retire_one_cq_length (s : EngineState) :
    (retire_one s).cq.length = s.cq.length - 1 := by
  unfold retire_one
  cases hc : s.cq with
  | nil => simp [hc]
  | cons hd rest => obtain ⟨op, raw⟩ := hd; simp [hc]

theorem drain_queue_depth (k : Nat) (s : EngineState) :
    (drain k s).queue_depth = s.queue_depth := by
  induction k generalizing s with
  | zero => rfl
  | succ k ih => rw [drain, ih, retire_one_queue_depth]

theorem drain_inFlight (k : Nat) (s : EngineState) :
    (drain k s).inFlight = s.inFlight := by
  induction k generalizing s with
  | zero => rfl
  | succ k ih => rw [drain, ih, retire_one_inFlight]

theorem drain_cq_length (k : Nat) (s : EngineState) :
    (drain k s).cq.length = s.cq.length - k := by
  induction k generalizing s with
  | zero => rfl
  | succ k ih => rw [drain, ih, retire_one_cq_length]; omega

theorem step_queue_depth (s : EngineState) (c : Cmd) :
    (step s c).queue_depth = s.queue_depth := by
  cases c with
  | submit op t1 t2 cbfn il => exact submit_async_queue_depth s op t1 t2 cbfn il
  | devComplete i raw => exact deviceComplete_queue_depth i raw s
  | poll m => exact drain_queue_depth _ s

theorem run_queue_depth (s : EngineState) (cmds : List Cmd) :
    (run s cmds).queue_depth = s.queue_depth := by
  induction cmds generalizing s with
  | nil => rfl
  | cons c cmds ih => rw [run, List.foldl_cons, ← run, ih, step_queue_depth]

/-- Draining everything currently available leaves the completion queue empty. -/
theorem drain_all_cq (s : EngineState) : (drain s.cq.length s).cq = [] := by
  simpa using drain_cq_length s.cq.length s

/-- `set_iter` overwrites the state found by `lookup`. -/
theorem lookup_set_iter (h : Nat) (v : IterState) (l : List (Nat × IterState))
    (hl : (l.lookup h).isSome) : (set_iter h v l).lookup h = some v := by
  induction l with
  | nil => simp [List.lookup] at hl
  | cons kv rest ih =>
    obtain ⟨k, w⟩ := kv
    by_cases hk : k = h
    · subst hk
      simp [set_iter, List.lookup]
    · rw [set_iter]
      simp only [if_neg hk]
      have hne : (h == k) = false := beq_eq_false_iff_ne.mpr (Ne.symm hk)
      simp only [List.lookup, hne] at hl ⊢
      exact ih hl

theorem process_completions_nonpos (m : Int) (s : EngineState) (hm : m ≤ 0) :
    process_completions m s = (s.cq.length, drain s.cq.length s) := by
  simp [process_completions, hm]

/-! ### Claim theorems -/

/-- Claim C3: every invocation of `process_completions(max)` terminates (it is
a total function of the state); with `max ≤ 0` it drains exactly the
completions currently available and then returns, and in particular against an
empty completion queue it returns immediately with count 0 and the state
unchanged. -/
theorem process_completions_terminating (s : EngineState) (m : Int)
    (hm : m ≤ 0) :
    (process_completions m s).1 = s.cq.length ∧
    (process_completions m s).2.cq = [] ∧
    (s.cq = [] → process_completions m s = (0, s)) := by
  rw [process_completions_nonpos m s hm]
  refine ⟨rfl, drain_all_cq s, ?_⟩
  intro hcq
  rw [hcq]
  rfl

theorem process_completions_terminating_witness :
    ((0 : Int) ≤ 0) ∧
    ((process_completions 0 (initDriver 4 9)).1 = (initDriver 4 9).cq.length ∧
     (process_completions 0 (initDriver 4 9)).2.cq = [] ∧
     ((initDriver 4 9).cq = [] →
       process_completions 0 (initDriver 4 9) = (0, initDriver 4 9))) :=
  ⟨by decide, process_completions_terminating (initDriver 4 9) 0 (by decide)⟩

/-- Helper for C4: spinning on a full queue with no completions available is
bounded — after the retry budget is exhausted the synchronous path surfaces
`Timeout` (§5) instead of hanging. -/
theorem spin_full_no_completions (b raw p1 p2 : Nat) (s : EngineState)
    (hf : queueFull s) (hcq : s.cq = []) :
    store_tuple_spin b raw p1 p2 s = (.Timeout, s) := by
  induction b with
  | zero => rfl
  | succ b ih =>
    rw [store_tuple_spin, if_pos hf]
    have hpc : (process_completions 1 s).2 = s := by
      simp [process_completions, hcq, drain]
    rw [hpc]
    exact ih

/-- Claim C4: an asynchronous submission issued while the transport submission
queue is full returns `QueueFull` immediately with the state unchanged (no
blocking, no retry); only the synchronous path spin-polls the Completion
Processor, and its spinning is bounded by the retry budget — when no
completion ever frees a slot it returns `Timeout` after the budget is
exhausted. -/
theorem queue_full_no_block_async (s : EngineState) (key value : List Nat)
    (p1 p2 raw b : Nat) (cbfn : Option Nat)
    (hk : key.isEmpty = false) (hf : queueFull s) :
    store_tuple s key value p1 p2 false cbfn raw b = (.QueueFull, s) ∧
    (s.cq = [] → store_tuple s key value p1 p2 true cbfn raw b = (.Timeout, s)) := by
  constructor
  · simp [store_tuple, hk, submit_async_full s .store p1 p2 cbfn none hf]
  · intro hcq
    simp only [store_tuple, hk, Bool.false_eq_true, if_false, if_true]
    exact spin_full_no_completions b raw p1 p2 s hf hcq

theorem queue_full_no_block_async_witness :
    (([1] : List Nat).isEmpty = false ∧ queueFull (initDriver 0 9)) ∧
    (store_tuple (initDriver 0 9) [1] [2] 5 6 false none 0 3 =
      (.QueueFull, initDriver 0 9) ∧
     ((initDriver 0 9).cq = [] →
       store_tuple (initDriver 0 9) [1] [2] 5 6 true none 0 3 =
         (.Timeout, initDriver 0 9))) :=
  ⟨⟨by decide, by decide⟩,
   queue_full_no_block_async (initDriver 0 9) [1] [2] 5 6 0 3 none
     (by decide) (by decide)⟩

/-- Claim C5: `iterator_next` succeeds only while the handle is Open: a handle
that was never opened, a handle recorded Closed, and a handle on which
`close_iterator` has just succeeded all yield `InvalidIteratorHandle`. -/
theorem iterator_next_requires_open (s : EngineState) (h : Nat) :
    (s.iters.lookup h = none →
      (iterator_next s h).1 = .InvalidIteratorHandle) ∧
    (s.iters.lookup h = some .Closed →
      (iterator_next s h).1 = .InvalidIteratorHandle) ∧
    (∀ bs, s.iters.lookup h = some (.Open bs) → ¬ queueFull s →
      (close_iterator s h).1 = .Ok ∧
      (iterator_next (close_iterator s h).2 h).1 = .InvalidIteratorHandle) := by
  refine ⟨?_, ?_, ?_⟩
  · intro hl; simp [iterator_next, hl]
  · intro hl; simp [iterator_next, hl]
  · intro bs hl hf
    have hsub := submit_async_not_full s .iterClose 0 0 none none hf
    have hS : (set_iter h IterState.Closed s.iters).lookup h =
        some IterState.Closed :=
      lookup_set_iter h _ s.iters (by rw [hl]; rfl)
    constructor
    · simp [close_iterator, hl, hsub]
    · simp [close_iterator, hl, hsub, iterator_next, hS]

theorem iterator_next_requires_open_witness :
    (((initDriver 4 9).iters.lookup 0 = none →
       (iterator_next (initDriver 4 9) 0).1 = .InvalidIteratorHandle) ∧
     ((initDriver 4 9).iters.lookup 0 = some .Closed →
       (iterator_next (initDriver 4 9) 0).1 = .InvalidIteratorHandle) ∧
     (∀ bs, (initDriver 4 9).iters.lookup 0 = some (.Open bs) →
       ¬ queueFull (initDriver 4 9) →
       (close_iterator (initDriver 4 9) 0).1 = .Ok ∧
       (iterator_next (close_iterator (initDriver 4 9) 0).2 0).1 =
         .InvalidIteratorHandle)) ∧
    ((({ initDriver 4 9 with
          iters := [(0, IterState.Open [[1]])] } : EngineState).iters.lookup 0 =
            none →
       (iterator_next
         { initDriver 4 9 with iters := [(0, IterState.Open [[1]])] } 0).1 =
         .InvalidIteratorHandle) ∧
     (({ initDriver 4 9 with
          iters := [(0, IterState.Open [[1]])] } : EngineState).iters.lookup 0 =
            some .Closed →
       (iterator_next
         { initDriver 4 9 with iters := [(0, IterState.Open [[1]])] } 0).1 =
         .InvalidIteratorHandle) ∧
     (∀ bs, ({ initDriver 4 9 with
          iters := [(0, IterState.Open [[1]])] } : EngineState).iters.lookup 0 =
            some (.Open bs) →
       ¬ queueFull { initDriver 4 9 with iters := [(0, IterState.Open [[1]])] } →
       (close_iterator
         { initDriver 4 9 with iters := [(0, IterState.Open [[1]])] } 0).1 =
         .Ok ∧
       (iterator_next
         (close_iterator
           { initDriver 4 9 with iters := [(0, IterState.Open [[1]])] } 0).2
         0).1 = .InvalidIteratorHandle)) :=
  ⟨iterator_next_requires_open (initDriver 4 9) 0,
   iterator_next_requires_open
     { initDriver 4 9 with iters := [(0, IterState.Open [[1]])] } 0⟩

/-- Claim C6: once an open cursor is exhausted (no pending batches),
`iterator_next` returns success with an empty key batch and the exhausted
flag set — never an error — and leaves the state (in particular the Open
handle) unchanged, so every subsequent call behaves identically until the
handle is closed. -/
theorem iterator_exhaustion_idempotent (s : EngineState) (h : Nat)
    (hh : s.iters.lookup h = some (.Open [])) :
    iterator_next s h = (.Ok, [], true, s) := by
  simp [iterator_next, hh]

theorem iterator_exhaustion_idempotent_witness :
    iterator_next
      { initDriver 4 9 with iters := [(0, IterState.Open [])] } 0 =
      (.Ok, [], true, { initDriver 4 9 with iters := [(0, IterState.Open [])] }) :=
  iterator_exhaustion_idempotent
    { initDriver 4 9 with iters := [(0, IterState.Open [])] } 0 (by decide)

/-- Claim C8: along every trace from a fresh session, the size of each
resource pool — the context free-list `udd_context_pool` and the
value-container free-list `kv_pair_pool` — never exceeds the configured
queue depth (the cap induced by gating submissions on queue-full). -/
theorem pool_size_bounded (qd cbid : Nat) (cmds : List Cmd) :
    (run (initDriver qd cbid) cmds).udd_context_pool.length ≤ qd ∧
    (run (initDriver qd cbid) cmds).kv_pair_pool ≤ qd := by
  have hinv := inv_reachable qd cbid cmds
  have hqd : (run (initDriver qd cbid) cmds).queue_depth = qd :=
    run_queue_depth _ _
  have h1 := hinv.ctx_bound
  have h2 := hinv.pair_bound
  rw [hqd] at h1 h2
  omega

/-- Claim C9: `release_context` clears the owner and callback (and iterator
buffer) fields before pushing the context back; consequently, in every
reachable state all pooled contexts are cleared and a context handed out by
`acquire_context` never carries a stale callback pointer. -/
theorem release_context_clears_before_reuse (qd cbid : Nat) (cmds : List Cmd)
    (c : kv_udd_context) (pool : List kv_udd_context) :
    (∃ c', release_context c pool = c' :: pool ∧
       c'.owner = none ∧ c'.on_complete = none ∧ c'.iocb = c.iocb) ∧
    (∀ c' ∈ (run (initDriver qd cbid) cmds).udd_context_pool,
       c'.owner = none ∧ c'.on_complete = none) ∧
    ((acquire_context
        (run (initDriver qd cbid) cmds).udd_context_pool).1.owner = none ∧
     (acquire_context
        (run (initDriver qd cbid) cmds).udd_context_pool).1.on_complete = none) := by
  refine ⟨⟨_, rfl, rfl, rfl, rfl⟩, ?_, ?_⟩
  · intro c' hc'
    have h := (inv_reachable qd cbid cmds).pool_clear c' hc'
    exact ⟨h.1, h.2.1⟩
  · cases hp : (run (initDriver qd cbid) cmds).udd_context_pool with
    | nil => simp [acquire_context, hp, freshContext]
    | cons a rest =>
      have ha := (inv_reachable qd cbid cmds).pool_clear a
        (by rw [hp]; exact List.mem_cons_self _ _)
      simp [acquire_context, hp, ha.1, ha.2.1]

theorem release_context_clears_before_reuse_witness :
    (∃ c', release_context freshContext [] = c' :: [] ∧
       c'.owner = none ∧ c'.on_complete = none ∧ c'.iocb = freshContext.iocb) ∧
    (∀ c' ∈ (run (initDriver 3 7) []).udd_context_pool,
       c'.owner = none ∧ c'.on_complete = none) ∧
    ((acquire_context (run (initDriver 3 7) []).udd_context_pool).1.owner =
        none ∧
     (acquire_context
        (run (initDriver 3 7) []).udd_context_pool).1.on_complete = none) :=
  release_context_clears_before_reuse 3 7 [] freshContext []

/-- Claim C10: `open_iterator` and `close_iterator` take no per-call callback,
user tags or sync flag (header lines 83–84), so the context they submit is
always bound to the session-wide `user_io_complete_` callback fixed at
construction — whereas `store_tuple` can bind a per-call callback. -/
theorem iterator_ops_use_session_callback (s : EngineState)
    (batches bs : List (List Nat)) (hiter k p1 p2 raw b : Nat)
    (key value : List Nat) (hf : ¬ queueFull s) (hk : key.isEmpty = false) :
    ((open_iterator s batches).2.2.inFlight.getLast?.map
        (fun op => op.ctx.on_complete) = some (some s.user_io_complete_)) ∧
    (s.iters.lookup hiter = some (.Open bs) →
      (close_iterator s hiter).2.inFlight.getLast?.map
        (fun op => op.ctx.on_complete) = some (some s.user_io_complete_)) ∧
    ((store_tuple s key value p1 p2 false (some k) raw b).2.inFlight.getLast?.map
        (fun op => op.ctx.on_complete) = some (some k)) := by
  refine ⟨?_, ?_, ?_⟩
  · have hsub := submit_async_not_full s .iterOpen 0 0 none none hf
    simp [open_iterator, hsub, subCtx]
  · intro hl
    have hsub := submit_async_not_full s .iterClose 0 0 none none hf
    simp [close_iterator, hl, hsub, subCtx]
  · have hsub := submit_async_not_full s .store p1 p2 (some k) none hf
    simp [store_tuple, hk, hsub, subCtx]

theorem iterator_ops_use_session_callback_witness :
    ((open_iterator
        { initDriver 4 9 with iters := [(0, IterState.Open [[2]])] }
        [[1]]).2.2.inFlight.getLast?.map (fun op => op.ctx.on_complete) =
      some (some ({ initDriver 4 9 with
        iters := [(0, IterState.Open [[2]])] } : EngineState).user_io_complete_)) ∧
    (({ initDriver 4 9 with
        iters := [(0, IterState.Open [[2]])] } : EngineState).iters.lookup 0 =
          some (.Open [[2]]) →
      (close_iterator
        { initDriver 4 9 with iters := [(0, IterState.Open [[2]])] }
        0).2.inFlight.getLast?.map (fun op => op.ctx.on_complete) =
        some (some ({ initDriver 4 9 with
          iters := [(0, IterState.Open [[2]])] } : EngineState).user_io_complete_)) ∧
    ((store_tuple { initDriver 4 9 with iters := [(0, IterState.Open [[2]])] }
        [1] [2] 5 6 false (some 12) 0 3).2.inFlight.getLast?.map
        (fun op => op.ctx.on_complete) = some (some 12)) :=
  iterator_ops_use_session_callback
    { initDriver 4 9 with iters := [(0, IterState.Open [[2]])] }
    [[1]] [[2]] 0 12 5 6 0 3 [1] [2] (by decide) (by decide)

/-- Claim C1: along every trace, every submitted operation's callback fires at
most once — and exactly once as soon as the operation is no longer pending
(its completion has been drained) — and every callback invocation recorded
for that operation carries exactly the user tags supplied at submission. -/
theorem callback_fires_exactly_once_with_matching_tags (qd cbid : Nat)
    (cmds : List Cmd) (r : SubmitRec)
    (hr : r ∈ (run (initDriver qd cbid) cmds).submitted) :
    idCountE r.id (run (initDriver qd cbid) cmds).events ≤ 1 ∧
    (idPending r.id (run (initDriver qd cbid) cmds) = false →
      idCountE r.id (run (initDriver qd cbid) cmds).events = 1) ∧
    (∀ e ∈ (run (initDriver qd cbid) cmds).events,
      e.opId = r.id → e.tag1 = r.t1 ∧ e.tag2 = r.t2) := by
  have hinv := inv_reachable qd cbid cmds
  have h1 := hinv.submitted_once r hr
  simp only [idCount] at h1
  refine ⟨by omega, ?_, hinv.tags_ev r hr⟩
  intro hp
  simp only [idPending, decide_eq_false_iff_not, not_lt, Nat.le_zero] at hp
  omega

theorem callback_fires_exactly_once_witness :
    ((⟨0, 5, 7⟩ : SubmitRec) ∈
      (run (initDriver 2 9)
        [.submit .store 5 7 (some 3) none, .devComplete 0 0, .poll 1]).submitted) ∧
    (idCountE 0 (run (initDriver 2 9)
        [.submit .store 5 7 (some 3) none, .devComplete 0 0, .poll 1]).events ≤ 1 ∧
     (idPending 0 (run (initDriver 2 9)
        [.submit .store 5 7 (some 3) none, .devComplete 0 0, .poll 1]) = false →
       idCountE 0 (run (initDriver 2 9)
        [.submit .store 5 7 (some 3) none, .devComplete 0 0, .poll 1]).events = 1) ∧
     (∀ e ∈ (run (initDriver 2 9)
        [.submit .store 5 7 (some 3) none, .devComplete 0 0, .poll 1]).events,
       e.opId = 0 → e.tag1 = 5 ∧ e.tag2 = 7)) :=
  ⟨by decide,
   callback_fires_exactly_once_with_matching_tags 2 9
     [.submit .store 5 7 (some 3) none, .devComplete 0 0, .poll 1]
     ⟨0, 5, 7⟩ (by decide)⟩

/-- Claim C2: along every trace, the number of contexts outstanding (acquired
minus released) equals — hence never exceeds — the number of in-flight
operations (submission queue plus undrained completions); and once all
completions have been drained by `process_completions` the outstanding count
returns to zero. -/
theorem pool_conservation (qd cbid : Nat) (cmds : List Cmd) :
    ((run (initDriver qd cbid) cmds).acquired =
       (run (initDriver qd cbid) cmds).released +
       (run (initDriver qd cbid) cmds).inFlight.length +
       (run (initDriver qd cbid) cmds).cq.length) ∧
    ((run (initDriver qd cbid) cmds).acquired -
       (run (initDriver qd cbid) cmds).released ≤
       (run (initDriver qd cbid) cmds).inFlight.length +
       (run (initDriver qd cbid) cmds).cq.length) ∧
    ((run (initDriver qd cbid) cmds).inFlight = [] →
      (process_completions 0 (run (initDriver qd cbid) cmds)).2.acquired =
        (process_completions 0 (run (initDriver qd cbid) cmds)).2.released) := by
  have hinv := inv_reachable qd cbid cmds
  have h := hinv.acq_rel
  refine ⟨h, by omega, ?_⟩
  intro hfl
  have hpoll : Inv (process_completions 0 (run (initDriver qd cbid) cmds)).2 :=
    inv_poll 0 _ hinv
  have h2 := hpoll.acq_rel
  have hpc := process_completions_nonpos 0 (run (initDriver qd cbid) cmds)
    (by decide)
  rw [hpc] at h2 ⊢
  have hIF := drain_inFlight (run (initDriver qd cbid) cmds).cq.length
    (run (initDriver qd cbid) cmds)
  have hCQ := drain_all_cq (run (initDriver qd cbid) cmds)
  rw [hIF, hfl, hCQ] at h2
  simpa using h2

theorem pool_conservation_witness :
    ((run (initDriver 2 9)
        [.submit .store 5 7 (some 3) none, .devComplete 0 0]).acquired =
       (run (initDriver 2 9)
        [.submit .store 5 7 (some 3) none, .devComplete 0 0]).released +
       (run (initDriver 2 9)
        [.submit .store 5 7 (some 3) none, .devComplete 0 0]).inFlight.length +
       (run (initDriver 2 9)
        [.submit .store 5 7 (some 3) none, .devComplete 0 0]).cq.length) ∧
    ((run (initDriver 2 9)
        [.submit .store 5 7 (some 3) none, .devComplete 0 0]).acquired -
       (run (initDriver 2 9)
        [.submit .store 5 7 (some 3) none, .devComplete 0 0]).released ≤
       (run (initDriver 2 9)
        [.submit .store 5 7 (some 3) none, .devComplete 0 0]).inFlight.length +
       (run (initDriver 2 9)
        [.submit .store 5 7 (some 3) none, .devComplete 0 0]).cq.length) ∧
    ((run (initDriver 2 9)
        [.submit .store 5 7 (some 3) none, .devComplete 0 0]).inFlight = [] →
      (process_completions 0 (run (initDriver 2 9)
        [.submit .store 5 7 (some 3) none, .devComplete 0 0])).2.acquired =
        (process_completions 0 (run (initDriver 2 9)
          [.submit .store 5 7 (some 3) none, .devComplete 0 0])).2.released) :=
  pool_conservation 2 9 [.submit .store 5 7 (some 3) none, .devComplete 0 0]

/-- Modelled from the spec (§8): the asynchronous store path driven to
completion against the same transport stub — submit, let the transport
complete the one issued command with raw code `raw`, drain that completion. -/
def store_async_drained (raw p1 p2 cb : Nat) (s : EngineState) : EngineState :=
  let s1 := (submit_async s .store p1 p2 (some cb) none).2
  let s2 := deviceComplete (s1.inFlight.length - 1) raw s1
  (process_completions 1 s2).2

theorem deviceComplete_last (raw : Nat) (s : EngineState) (l : List InflightOp)
    (op : InflightOp) (hIF : s.inFlight = l ++ [op]) :
    deviceComplete ((l ++ [op]).length - 1) raw s =
      { s with inFlight := l, cq := s.cq ++ [(op, raw)] } := by
  have h1 : (l ++ [op]).length - 1 = l.length := by simp
  have h2 : s.inFlight[(l ++ [op]).length - 1]? = some op := by
    rw [h1, hIF]
    exact List.getElem?_concat_length l op
  unfold deviceComplete
  rw [h2, h1, hIF]
  simp

theorem process_completions_one (s : EngineState) (x : InflightOp × Nat)
    (hc : s.cq = [x]) : (process_completions 1 s).2 = retire_one s := by
  simp [process_completions, hc, drain]

/-- Claim C7: issuing the same store operation synchronously or
asynchronously, against a transport stub that returns the identical
completion `raw`, yields the same result code (the synchronous return equals
the result delivered to the asynchronous callback) and the same final
value-container pool — indeed the same final context pool too. -/
theorem sync_async_store_equiv (s : EngineState) (raw p1 p2 cb : Nat)
    (hf : ¬ queueFull s) (hcq : s.cq = []) :
    (store_async_drained raw p1 p2 cb s).events.getLast?.map
        (fun e => e.result) = some (store_sync_complete raw p1 p2 s).1 ∧
    (store_async_drained raw p1 p2 cb s).kv_pair_pool =
      (store_sync_complete raw p1 p2 s).2.kv_pair_pool ∧
    (store_async_drained raw p1 p2 cb s).udd_context_pool =
      (store_sync_complete raw p1 p2 s).2.udd_context_pool := by
  have hsub := submit_async_not_full s .store p1 p2 (some cb) none hf
  unfold store_async_drained
  rw [hsub]
  dsimp only
  rw [deviceComplete_last raw _ s.inFlight
    ⟨s.nextId, subCtx .store p1 p2 (some cb) none s, needsPair .store⟩ rfl]
  rw [process_completions_one _
    (⟨s.nextId, subCtx .store p1 p2 (some cb) none s, needsPair .store⟩, raw)
    (by dsimp only; rw [hcq]; rfl)]
  unfold retire_one
  dsimp only
  rw [hcq]
  simp [store_sync_complete, release_context, subCtx, acquire_context,
    needsPair, prep_io_context]

theorem sync_async_store_equiv_witness :
    (¬ queueFull (initDriver 2 9) ∧ (initDriver 2 9).cq = []) ∧
    ((store_async_drained 0 5 7 3 (initDriver 2 9)).events.getLast?.map
        (fun e => e.result) =
      some (store_sync_complete 0 5 7 (initDriver 2 9)).1 ∧
     (store_async_drained 0 5 7 3 (initDriver 2 9)).kv_pair_pool =
       (store_sync_complete 0 5 7 (initDriver 2 9)).2.kv_pair_pool ∧
     (store_async_drained 0 5 7 3 (initDriver 2 9)).udd_context_pool =
       (store_sync_complete 0 5 7 (initDriver 2 9)).2.udd_context_pool) :=
  ⟨⟨by decide, by decide⟩,
   sync_async_store_equiv (initDriver 2 9) 0 5 7 3 (by decide) (by decide)⟩

end KVSSD
